import Mathlib

/-!
Verification of the LatinIME incremental gesture decoder.

The repository sources under verification expose the decoder's public
contract (`incremental_decoder_interface.h`) and the concrete derived class
(`incremental_decoder.h`, whose constructor forwards to
`IncrementalDecoderImpl`).  The `IncrementalDecoderImpl` engine itself is
not among the given sources, so its behaviour is modelled here from the
specification document, definition by definition; each such definition's
doc comment starts with "Modelled from the spec:".
-/

namespace LatinIME

/-- Modelled from the spec: a single touch sample of the gesture path
(spec section 3, GesturePoint): screen coordinates, timestamp, pointer id,
and the key code when the sample lands exactly on a key.  All components
come from the C `int` arrays of `getSuggestions`. -/
structure GesturePoint where
  x : Int
  y : Int
  time : Int
  pointerId : Int
  code : Int
  deriving DecidableEq, Repr

/-- Modelled from the spec: a nearby-key candidate for one GesturePoint
(spec section 3, ProximityWeight).  The weight is kept directly in
log-space as an integer, since scores combine additively in log-space
(section 4.2) and the exact numeric scale is an open question of the spec
(section 9). -/
structure ProximityWeight where
  keyId : Nat
  weight : Int
  deriving DecidableEq, Repr

/-- Modelled from the spec: the external ProximityModel collaborator
(spec section 2): for a touch sample it supplies the set of nearby keys
with distance weights.  This embeds the `ProximityInfo *` argument. -/
abbrev ProximityModel : Type := GesturePoint → List ProximityWeight

/-- Modelled from the spec: the lexicon trie supplied by the LexiconAccess
collaborator (spec section 2): each node carries an optional terminal
unigram frequency and children keyed by code point.  This embeds the
`UnigramDictionary *` argument of `setDict`. -/
inductive Trie : Type where
  | node (freq : Option Nat) (children : List (Nat × Trie))

/-- Terminal unigram frequency of a trie node, when the node ends a word. -/
def Trie.freq : Trie → Option Nat
  | .node f _ => f

/-- Children of a trie node, keyed by code point. -/
def Trie.children : Trie → List (Nat × Trie)
  | .node _ c => c

/-- Modelled from the spec: the bigram dictionary bound by `setDict`
(spec sections 2 and 4.3): conditional word-pair weights, looked up by
(previous word, candidate word).  This embeds the `BigramDictionary *`
argument of `setDict`. -/
structure BigramDictionary where
  entries : List (List Nat × List Nat × Nat)

/-- Modelled from the spec: bigram weight for (prevWord, candidate), when
the bigram dictionary has such an entry (spec section 4.3). -/
def lookupBigram (b : BigramDictionary) (prev w : List Nat) : Option Nat :=
  (b.entries.find? (fun e => e.1 == prev && e.2.1 == w)).map (fun e => e.2.2)

/-- Modelled from the spec: one partial-word hypothesis of the search
frontier (spec section 3, SearchNode): trie position, accumulated
log-space score, matched gesture range, and the word spelled so far. -/
structure SearchNode where
  trie : Trie
  cumulativeScore : Int
  gestureRangeStart : Nat
  gestureRangeEnd : Nat
  wordSoFar : List Nat

/-- Modelled from the spec: the externally visible output unit
(spec section 3, Suggestion): word text, combined frequency after bigram
re-scoring, and the discovery-order index used to break ties. -/
structure Suggestion where
  word : List Nat
  combinedFrequency : Int
  originalRankIndex : Nat
  deriving DecidableEq, Repr

/-- Modelled from the spec: the DecoderSession state (spec section 3):
borrowed dictionaries, owned prevWord context, the working frontier, the
frontier snapshot at the last commit point (spec section 9 models the
frozen prefix explicitly as such a snapshot), the commit point, and the
buffered samples of the current gesture.  `maxWordLength` and `maxWords`
are the construction-time capacities. -/
structure DecoderState where
  maxWordLength : Nat
  maxWords : Nat
  dict : Option (Trie × Option BigramDictionary)
  prevWord : Option (List Nat)
  frontier : List SearchNode
  committedFrontier : List SearchNode
  commitPoint : Nat
  samples : List GesturePoint

/-- Result of one `getSuggestions` call: the returned count and the
contents written into the `outWords`, `frequencies` and `outputIndices`
output buffers. -/
structure GsResult where
  count : Nat
  outWords : List (List Nat)
  frequencies : List Int
  outputIndices : List Nat
  deriving DecidableEq, Repr

/-- Modelled from the spec: the log-space bonus for an existing trie
transition (spec section 4.2); its exact value is an open question of the
spec (section 9), so it is a fixed constant here. -/
def transitionBonus : Int := 1

/-- Modelled from the spec: the fixed score margin of beam pruning
(spec section 4.2); its exact value is an open question of the spec
(section 9), so it is a fixed constant here. -/
def beamMargin : Int := 1000

/-- Modelled from the spec: the frontier holding the single root node at
the bound dictionary's trie root (spec section 4.2); empty while no
dictionary is bound. -/
def rootFrontier (d : Option (Trie × Option BigramDictionary)) : List SearchNode :=
  match d with
  | none => []
  | some (t, _) =>
      [{ trie := t, cumulativeScore := 0, gestureRangeStart := 0,
         gestureRangeEnd := 0, wordSoFar := [] }]

/-- Modelled from the spec: the `IncrementalDecoderImpl(maxWordLength,
maxWords)` constructor: a fresh UNBOUND session (spec section 4.4) with no
dictionary, no prevWord, empty frontier and no buffered samples. -/
def IncrementalDecoderImpl.make (maxWordLength maxWords : Nat) : DecoderState :=
  { maxWordLength := maxWordLength, maxWords := maxWords, dict := none,
    prevWord := none, frontier := [], committedFrontier := [],
    commitPoint := 0, samples := [] }

/-- `IncrementalDecoder` from src incremental_decoder.h: its constructor
forwards `(maxWordLength, maxWords)` unchanged to the
`IncrementalDecoderImpl` constructor and adds no state of its own. -/
def IncrementalDecoder.make (maxWordLength maxWords : Nat) : DecoderState :=
  IncrementalDecoderImpl.make maxWordLength maxWords

/-- Modelled from the spec: `setDict` binds the lexicon by borrow, is legal
from any state, forces a transition to READY with the frontier cleared to
the new root, and invalidates all existing SearchNodes (spec sections 3,
4.2 and 4.4).  `prevWord` is untouched. -/
def setDict (st : DecoderState) (dict : Trie) (bigram : Option BigramDictionary) :
    DecoderState :=
  { st with
      dict := some (dict, bigram),
      frontier := rootFrontier (some (dict, bigram)),
      committedFrontier := rootFrontier (some (dict, bigram)),
      commitPoint := 0, samples := [] }

/-- Modelled from the spec: `setPrevWord` sets or clears the bigram
context; a non-positive length clears it (spec section 6).  It affects
neither the session state machine nor the frontier (spec section 4.4). -/
def setPrevWord (st : DecoderState) (prevWord : List Nat) (prevWordLength : Int) :
    DecoderState :=
  if prevWordLength ≤ 0 then { st with prevWord := none }
  else { st with prevWord := some (prevWord.take prevWordLength.toNat) }

/-- Modelled from the spec: `reset()` clears the gesture-local state: the
frontier returns to the single root node at the dictionary's trie root,
the commit point to 0, and the buffered samples are dropped; dictionary
bindings and `prevWord` are untouched (spec sections 4.2 and 6). -/
def reset (st : DecoderState) : DecoderState :=
  { st with
      frontier := rootFrontier st.dict,
      committedFrontier := rootFrontier st.dict,
      commitPoint := 0, samples := [] }

/-- Modelled from the spec: child hypotheses of one SearchNode at one
gesture sample (spec section 4.2): for each proximity candidate key and
each matching trie child, a child node scored additively in log-space by
the proximity weight plus the transition bonus.  No child is created once
the node's word has reached `maxWordLength` (spec section 3 invariants). -/
def expandNode (pInfo : ProximityModel) (maxWordLength : Nat) (n : SearchNode)
    (idx : Nat) (pt : GesturePoint) : List SearchNode :=
  if n.wordSoFar.length < maxWordLength then
    (pInfo pt).flatMap (fun pw =>
      (n.trie.children.filter (fun c => c.1 == pw.keyId)).map (fun c =>
        { trie := c.2,
          cumulativeScore := n.cumulativeScore + pw.weight + transitionBonus,
          gestureRangeStart := n.gestureRangeStart,
          gestureRangeEnd := idx,
          wordSoFar := n.wordSoFar ++ [c.1] }))
  else []

/-- Beam order on search nodes: higher cumulative score first. -/
def nodeGE (a b : SearchNode) : Prop := b.cumulativeScore ≤ a.cumulativeScore

instance : DecidableRel nodeGE := fun a b =>
  inferInstanceAs (Decidable (b.cumulativeScore ≤ a.cumulativeScore))

/-- Modelled from the spec: beam pruning after each processed sample
(spec section 4.2): keep at most `maxWords` nodes and only nodes within
the fixed score margin of the best node; both bounds enforced. -/
def pruneFrontier (maxWords : Nat) (F : List SearchNode) : List SearchNode :=
  let sorted := List.insertionSort nodeGE F
  let bestScore := ((sorted.head?).map (fun n => n.cumulativeScore)).getD 0
  (sorted.take maxWords).filter (fun n =>
    decide (bestScore - beamMargin ≤ n.cumulativeScore))

/-- Modelled from the spec: processing one indexed pending sample
(spec sections 4.1 and 4.2): a sample whose pointer id does not match the
active gesture's pointer is ignored; otherwise every active node keeps its
place (a prefix can be both a complete word and continue to a longer word)
and contributes its child hypotheses, and the frontier is then pruned. -/
def stepFrontier (pInfo : ProximityModel) (maxWordLength maxWords : Nat)
    (activePid : Int) (F : List SearchNode) (ip : Nat × GesturePoint) :
    List SearchNode :=
  if ip.2.pointerId == activePid then
    pruneFrontier maxWords
      (F.flatMap (fun n => n :: expandNode pInfo maxWordLength n ip.1 ip.2))
  else F

/-- Modelled from the spec: advancing the frontier over a window of
indexed pending samples (spec section 4.2), one sample at a time. -/
def advanceFrontier (pInfo : ProximityModel) (maxWordLength maxWords : Nat)
    (activePid : Int) (F : List SearchNode)
    (pending : List (Nat × GesturePoint)) : List SearchNode :=
  pending.foldl (stepFrontier pInfo maxWordLength maxWords activePid) F

/-- Modelled from the spec: the i-th sample assembled from the per-sample
arrays of `getSuggestions` (spec section 4.1); out-of-range reads default
to 0 and are never reached on validated input. -/
def sampleAt (xs ys ts pids cs : List Int) (i : Nat) : GesturePoint :=
  { x := xs.getD i 0, y := ys.getD i 0, time := ts.getD i 0,
    pointerId := pids.getD i 0, code := cs.getD i 0 }

/-- Modelled from the spec: the buffered samples of the gesture, the first
`n` entries of the per-sample arrays (spec section 4.1). -/
def buildSamples (xs ys ts pids cs : List Int) (n : Nat) : List GesturePoint :=
  (List.range n).map (sampleAt xs ys ts pids cs)

/-- Modelled from the spec: the samples paired with their indices in the
gesture, as consumed by the search engine (spec section 4.1). -/
def indexedSamples (xs ys ts pids cs : List Int) (n : Nat) :
    List (Nat × GesturePoint) :=
  (List.range n).map (fun i => (i, sampleAt xs ys ts pids cs i))

/-- Modelled from the spec: input validation at call entry
(spec sections 4.1, 6 and 7): the call is rejected when `inputSize <= 0`,
when the commit point lies outside `[0, inputSize]`, or when a per-sample
array is shorter than `inputSize`. -/
def validInput (xs ys ts pids cs : List Int) (inputSize commitPoint : Int) : Prop :=
  0 < inputSize ∧ 0 ≤ commitPoint ∧ commitPoint ≤ inputSize ∧
    inputSize ≤ (xs.length : Int) ∧ inputSize ≤ (ys.length : Int) ∧
    inputSize ≤ (ts.length : Int) ∧ inputSize ≤ (pids.length : Int) ∧
    inputSize ≤ (cs.length : Int)

instance (xs ys ts pids cs : List Int) (inputSize commitPoint : Int) :
    Decidable (validInput xs ys ts pids cs inputSize commitPoint) := by
  unfold validInput; infer_instance

/-- Modelled from the spec: the combined frequency of a candidate word
(spec section 4.3): when `prevWord` is set and the bigram dictionary has
an entry for (prevWord, candidate), the bigram weight boosts the raw
unigram frequency; otherwise the raw unigram frequency is used. -/
def combinedFrequency (bigram : Option BigramDictionary)
    (prevWord : Option (List Nat)) (w : List Nat) (rawFreq : Nat) : Int :=
  match prevWord, bigram with
  | some pw, some b =>
      match lookupBigram b pw w with
      | some boost => (rawFreq : Int) + (boost : Int)
      | none => (rawFreq : Int)
  | _, _ => (rawFreq : Int)

/-- Modelled from the spec: suggestions paired with consecutive discovery
indices starting at `i` (spec sections 3 and 4.3). -/
def indexSuggestions : Nat → List (List Nat × Int) → List Suggestion
  | _, [] => []
  | i, p :: rest =>
      { word := p.1, combinedFrequency := p.2, originalRankIndex := i } ::
        indexSuggestions (i + 1) rest

/-- Modelled from the spec: the current terminal Hypotheses of the
frontier (spec sections 4.2 and 4.3): every frontier node at a terminal
trie node yields a candidate, scored by `combinedFrequency`, in discovery
order. -/
def terminalSuggestions (bigram : Option BigramDictionary)
    (prevWord : Option (List Nat)) (F : List SearchNode) : List Suggestion :=
  indexSuggestions 0
    (F.filterMap (fun n =>
      (n.trie.freq).map (fun f =>
        (n.wordSoFar, combinedFrequency bigram prevWord n.wordSoFar f))))

/-- Modelled from the spec: a candidate survives deduplication exactly
when no candidate of the same word text scores strictly higher and none
with the same score was discovered earlier (spec section 4.3: keep the
highest-scoring instance, ties to earlier discovery). -/
def isBestOccurrence (l : List Suggestion) (s : Suggestion) : Prop :=
  ∀ t ∈ l, t.word = s.word →
    t.combinedFrequency < s.combinedFrequency ∨
      (t.combinedFrequency = s.combinedFrequency ∧
        s.originalRankIndex ≤ t.originalRankIndex)

instance (l : List Suggestion) (s : Suggestion) :
    Decidable (isBestOccurrence l s) := by
  unfold isBestOccurrence; infer_instance

/-- Ranking order on suggestions: higher combined frequency first, ties
broken by earlier discovery index (spec section 4.3). -/
def suggOrder (a b : Suggestion) : Prop :=
  b.combinedFrequency < a.combinedFrequency ∨
    (a.combinedFrequency = b.combinedFrequency ∧
      a.originalRankIndex ≤ b.originalRankIndex)

instance : DecidableRel suggOrder := fun a b => by
  unfold suggOrder; infer_instance

instance : IsTotal Suggestion suggOrder :=
  ⟨fun a b => by unfold suggOrder; omega⟩

instance : IsTrans Suggestion suggOrder :=
  ⟨fun a b c hab hbc => by unfold suggOrder at *; omega⟩

/-- Modelled from the spec: the SuggestionRanker (spec section 4.3):
deduplicate by word text keeping the highest-scoring instance, sort
descending by combined frequency with stable tie-break by discovery
order, and truncate to the caller's output capacity. -/
def rankSuggestions (maxOut : Nat) (suggs : List Suggestion) : List Suggestion :=
  (List.insertionSort suggOrder
    (suggs.filter (fun s => decide (isBestOccurrence suggs s)))).take maxOut

/-- The empty result of a rejected or unbound `getSuggestions` call. -/
def emptyResult : GsResult :=
  { count := 0, outWords := [], frequencies := [], outputIndices := [] }

/-- Modelled from the spec: the frontier snapshot at the call's commit
point (spec sections 4.2 and 9): the stored snapshot when the commit point
is unchanged, the snapshot advanced over the newly committed samples when
it grew, the root for a full decode (`commitPoint = 0`), and a recompute
from the root on a contract-violating regression of the commit point. -/
def decodeBase (st : DecoderState) (pInfo : ProximityModel)
    (xs ys ts pids cs : List Int) (n c : Nat) : List SearchNode :=
  let activePid := pids.getD 0 0
  let indexed := indexedSamples xs ys ts pids cs n
  if c = 0 then rootFrontier st.dict
  else if c = st.commitPoint then st.committedFrontier
  else if st.commitPoint < c then
    advanceFrontier pInfo st.maxWordLength st.maxWords activePid
      st.committedFrontier ((indexed.take c).drop st.commitPoint)
  else
    advanceFrontier pInfo st.maxWordLength st.maxWords activePid
      (rootFrontier st.dict) (indexed.take c)

/-- Modelled from the spec: the working frontier after the pending window
`[commitPoint, inputSize)` has advanced the commit-point snapshot
(spec sections 4.1 and 4.2). -/
def decodeWorking (st : DecoderState) (pInfo : ProximityModel)
    (xs ys ts pids cs : List Int) (n c : Nat) : List SearchNode :=
  advanceFrontier pInfo st.maxWordLength st.maxWords (pids.getD 0 0)
    (decodeBase st pInfo xs ys ts pids cs n c)
    ((indexedSamples xs ys ts pids cs n).drop c)

/-- Modelled from the spec: `getSuggestions` (spec sections 4 and 6).  In
UNBOUND state it fails immediately with zero suggestions; invalid input
shape short-circuits to zero suggestions leaving the session untouched.
Otherwise the frontier snapshot at the call's commit point is obtained
(from the stored snapshot when the commit point is unchanged, by folding
the newly committed samples when it grew, from the root for a full
decode), the pending window `[commitPoint, inputSize)` advances it, and
the ranker produces the output; the session stores the new snapshot,
commit point, working frontier and buffered samples. -/
def getSuggestions (st : DecoderState) (pInfo : ProximityModel)
    (inputXs inputYs times pointerIds codes : List Int)
    (inputSize commitPoint : Int) (isMainDict : Bool) (maxOut : Nat) :
    GsResult × DecoderState :=
  match st.dict with
  | none => (emptyResult, st)
  | some (_, bigram) =>
      if validInput inputXs inputYs times pointerIds codes inputSize commitPoint then
        let n := inputSize.toNat
        let c := commitPoint.toNat
        let base := decodeBase st pInfo inputXs inputYs times pointerIds codes n c
        let working := decodeWorking st pInfo inputXs inputYs times pointerIds codes n c
        let suggs := rankSuggestions maxOut
          (terminalSuggestions bigram st.prevWord working)
        ({ count := suggs.length,
           outWords := suggs.map (fun s => s.word),
           frequencies := suggs.map (fun s => s.combinedFrequency),
           outputIndices := suggs.map (fun s => s.originalRankIndex) },
         { st with
             frontier := working, committedFrontier := base,
             commitPoint := c,
             samples := buildSamples inputXs inputYs times pointerIds codes n })
      else (emptyResult, st)

/-- One operation of the decoder's public contract
(incremental_decoder_interface.h). -/
inductive DecoderOp where
  | opSetDict (dict : Trie) (bigram : Option BigramDictionary)
  | opSetPrevWord (prevWord : List Nat) (prevWordLength : Int)
  | opReset
  | opGetSuggestions (pInfo : ProximityModel) (xs ys ts pids cs : List Int)
      (inputSize commitPoint : Int) (isMainDict : Bool) (maxOut : Nat)

/-- Running one contract operation on a session: the next session state
and the call's result when the operation returns one. -/
def runOp (st : DecoderState) : DecoderOp → DecoderState × Option GsResult
  | .opSetDict d b => (setDict st d b, none)
  | .opSetPrevWord w len => (setPrevWord st w len, none)
  | .opReset => (reset st, none)
  | .opGetSuggestions pInfo xs ys ts pids cs n c m k =>
      let r := getSuggestions st pInfo xs ys ts pids cs n c m k
      (r.2, some r.1)

/-- Running a sequence of contract operations, collecting every
`getSuggestions` result. -/
def runOps (st : DecoderState) : List DecoderOp → DecoderState × List GsResult
  | [] => (st, [])
  | op :: ops =>
      let r := runOp st op
      let rest := runOps r.1 ops
      (rest.1, (r.2.map (fun g => [g])).getD [] ++ rest.2)

/-- Session states reachable from a freshly constructed
`IncrementalDecoderImpl(maxWordLength, maxWords)` by contract
operations. -/
inductive Reachable (maxWordLength maxWords : Nat) : DecoderState → Prop where
  | init : Reachable maxWordLength maxWords
      (IncrementalDecoderImpl.make maxWordLength maxWords)
  | step (st : DecoderState) (op : DecoderOp) :
      Reachable maxWordLength maxWords st →
      Reachable maxWordLength maxWords (runOp st op).1

/-- Capacity discipline of one frontier (spec section 3 invariants): at
most `maxWords` live hypotheses, and no hypothesis spells a word longer
than `maxWordLength`. -/
def frontierOK (maxWordLength maxWords : Nat) (F : List SearchNode) : Prop :=
  F.length ≤ maxWords ∧ ∀ n ∈ F, n.wordSoFar.length ≤ maxWordLength

/-- Capacity discipline of a whole session: the construction-time bounds
are retained and both the working frontier and the commit-point snapshot
obey them. -/
def sessionOK (maxWordLength maxWords : Nat) (st : DecoderState) : Prop :=
  st.maxWordLength = maxWordLength ∧ st.maxWords = maxWords ∧
    frontierOK maxWordLength maxWords st.frontier ∧
    frontierOK maxWordLength maxWords st.committedFrontier

/-- A small concrete lexicon trie for the witness theorems: the word
`[1, 2]` with unigram frequency 10 and the word `[1, 2, 2]` with unigram
frequency 5. -/
def trieTo : Trie :=
  .node none [(1, .node none [(2, .node (some 10) [(2, .node (some 5) [])])])]

/-- A concrete proximity model for the witness theorems: each sample
proposes exactly the key named by its own key code, at log-weight 0. -/
def pmExact : ProximityModel :=
  fun pt => [{ keyId := pt.code.toNat, weight := 0 }]

/-- A concrete READY session for the witness theorems. -/
def stReady : DecoderState :=
  setDict (IncrementalDecoderImpl.make 48 18) trieTo none

/-! ### Frontier lemmas -/

theorem mem_of_mem_pruneFrontier {maxWords : Nat} {F : List SearchNode}
    {m : SearchNode} (h : m ∈ pruneFrontier maxWords F) : m ∈ F := by
  unfold pruneFrontier at h
  have h1 : m ∈ (List.insertionSort nodeGE F).take maxWords :=
    List.mem_of_mem_filter h
  have h2 : m ∈ List.insertionSort nodeGE F :=
    (List.take_sublist _ _).mem h1
  exact (List.mem_insertionSort nodeGE).mp h2

theorem length_pruneFrontier_le (maxWords : Nat) (F : List SearchNode) :
    (pruneFrontier maxWords F).length ≤ maxWords := by
  unfold pruneFrontier
  refine le_trans (List.length_filter_le _ _) ?_
  exact le_trans (List.length_take_le _ _) (le_refl _)

theorem length_stepFrontier_le {pInfo : ProximityModel}
    {maxWordLength maxWords : Nat} {activePid : Int} {F : List SearchNode}
    {ip : Nat × GesturePoint} (h : F.length ≤ maxWords) :
    (stepFrontier pInfo maxWordLength maxWords activePid F ip).length ≤ maxWords := by
  unfold stepFrontier
  split
  · exact length_pruneFrontier_le _ _
  · exact h

theorem length_advanceFrontier_le {pInfo : ProximityModel}
    {maxWordLength maxWords : Nat} {activePid : Int}
    (pending : List (Nat × GesturePoint)) (F : List SearchNode)
    (h : F.length ≤ maxWords) :
    (advanceFrontier pInfo maxWordLength maxWords activePid F pending).length ≤
      maxWords := by
  induction pending generalizing F with
  | nil => exact h
  | cons ip rest ih => exact ih _ (length_stepFrontier_le h)

theorem mem_expandNode {pInfo : ProximityModel} {maxWordLength : Nat}
    {n : SearchNode} {idx : Nat} {pt : GesturePoint} {m : SearchNode}
    (h : m ∈ expandNode pInfo maxWordLength n idx pt) :
    n.wordSoFar.length < maxWordLength ∧
      ∃ k, m.wordSoFar = n.wordSoFar ++ [k] := by
  unfold expandNode at h
  split at h
  · rename_i hlt
    rw [List.mem_flatMap] at h
    obtain ⟨pw, _, hm⟩ := h
    rw [List.mem_map] at hm
    obtain ⟨c, _, rfl⟩ := hm
    exact ⟨hlt, c.1, rfl⟩
  · cases h

theorem exists_parent_of_mem_stepFrontier {pInfo : ProximityModel}
    {maxWordLength maxWords : Nat} {activePid : Int} {F : List SearchNode}
    {ip : Nat × GesturePoint} {m : SearchNode}
    (h : m ∈ stepFrontier pInfo maxWordLength maxWords activePid F ip) :
    ∃ p ∈ F, p.wordSoFar <+: m.wordSoFar ∧ (m.wordSoFar = p.wordSoFar → m = p) := by
  unfold stepFrontier at h
  split at h
  · have h1 := mem_of_mem_pruneFrontier h
    rw [List.mem_flatMap] at h1
    obtain ⟨p, hp, hm⟩ := h1
    rcases List.mem_cons.mp hm with heq | hm
    · refine ⟨p, hp, ?_, fun _ => heq⟩
      rw [heq]
    · obtain ⟨_, k, hw⟩ := mem_expandNode hm
      refine ⟨p, hp, ?_, ?_⟩
      · rw [hw]; exact List.prefix_append _ _
      · intro he
        exfalso
        have := congrArg List.length he
        rw [hw, List.length_append] at this
        simp at this
  · exact ⟨m, h, List.prefix_rfl, fun _ => rfl⟩

theorem exists_ancestor_of_mem_advanceFrontier {pInfo : ProximityModel}
    {maxWordLength maxWords : Nat} {activePid : Int}
    (pending : List (Nat × GesturePoint)) (F : List SearchNode) {m : SearchNode}
    (h : m ∈ advanceFrontier pInfo maxWordLength maxWords activePid F pending) :
    ∃ p ∈ F, p.wordSoFar <+: m.wordSoFar ∧ (m.wordSoFar = p.wordSoFar → m = p) := by
  induction pending generalizing F with
  | nil => exact ⟨m, h, List.prefix_rfl, fun _ => rfl⟩
  | cons ip rest ih =>
      obtain ⟨q, hq, hqm, hqe⟩ := ih _ h
      obtain ⟨p, hp, hpq, hpe⟩ := exists_parent_of_mem_stepFrontier hq
      refine ⟨p, hp, hpq.trans hqm, ?_⟩
      intro he
      have hlen : q.wordSoFar.length = p.wordSoFar.length := by
        have l1 := hpq.length_le
        have l2 := hqm.length_le
        rw [he] at l2
        omega
      have hqp : q.wordSoFar = p.wordSoFar :=
        (hpq.eq_of_length hlen.symm).symm
      have : q = p := hpe hqp
      subst this
      exact hqe he

theorem wordLen_stepFrontier {pInfo : ProximityModel}
    {maxWordLength maxWords : Nat} {activePid : Int} {F : List SearchNode}
    {ip : Nat × GesturePoint}
    (h : ∀ n ∈ F, n.wordSoFar.length ≤ maxWordLength) :
    ∀ m ∈ stepFrontier pInfo maxWordLength maxWords activePid F ip,
      m.wordSoFar.length ≤ maxWordLength := by
  intro m hm
  unfold stepFrontier at hm
  split at hm
  · have h1 := mem_of_mem_pruneFrontier hm
    rw [List.mem_flatMap] at h1
    obtain ⟨p, hp, hmm⟩ := h1
    rcases List.mem_cons.mp hmm with rfl | hmm
    · exact h _ hp
    · obtain ⟨hlt, k, hw⟩ := mem_expandNode hmm
      rw [hw, List.length_append]
      simp only [List.length_singleton]
      omega
  · exact h _ hm

theorem wordLen_advanceFrontier {pInfo : ProximityModel}
    {maxWordLength maxWords : Nat} {activePid : Int}
    (pending : List (Nat × GesturePoint)) (F : List SearchNode)
    (h : ∀ n ∈ F, n.wordSoFar.length ≤ maxWordLength) :
    ∀ m ∈ advanceFrontier pInfo maxWordLength maxWords activePid F pending,
      m.wordSoFar.length ≤ maxWordLength := by
  induction pending generalizing F with
  | nil => exact h
  | cons ip rest ih => exact ih _ (wordLen_stepFrontier h)

theorem frontierOK_advanceFrontier {pInfo : ProximityModel}
    {maxWordLength maxWords : Nat} {activePid : Int}
    {pending : List (Nat × GesturePoint)} {F : List SearchNode}
    (h : frontierOK maxWordLength maxWords F) :
    frontierOK maxWordLength maxWords
      (advanceFrontier pInfo maxWordLength maxWords activePid F pending) :=
  ⟨length_advanceFrontier_le _ _ h.1, wordLen_advanceFrontier _ _ h.2⟩

theorem frontierOK_rootFrontier {maxWordLength maxWords : Nat}
    (hmw : 1 ≤ maxWords) (d : Option (Trie × Option BigramDictionary)) :
    frontierOK maxWordLength maxWords (rootFrontier d) := by
  unfold frontierOK rootFrontier
  match d with
  | none => exact ⟨by simp, by simp⟩
  | some (t, b) =>
      refine ⟨by simpa using hmw, ?_⟩
      intro n hn
      rw [List.mem_singleton] at hn
      subst hn
      simp

/-! ### Ranker lemmas -/

theorem mem_indexSuggestions {l : List (List Nat × Int)} {i : Nat}
    {s : Suggestion} (h : s ∈ indexSuggestions i l) :
    (s.word, s.combinedFrequency) ∈ l := by
  induction l generalizing i with
  | nil => cases h
  | cons p rest ih =>
      rw [indexSuggestions] at h
      rcases List.mem_cons.mp h with heq | h
      · subst heq; simp
      · exact List.mem_cons_of_mem _ (ih h)

theorem le_idx_of_mem_indexSuggestions {l : List (List Nat × Int)} {i : Nat}
    {s : Suggestion} (h : s ∈ indexSuggestions i l) :
    i ≤ s.originalRankIndex := by
  induction l generalizing i with
  | nil => cases h
  | cons p rest ih =>
      rw [indexSuggestions] at h
      rcases List.mem_cons.mp h with heq | h
      · subst heq; exact le_refl _
      · exact le_trans (Nat.le_succ i) (ih h)

theorem eq_of_idx_eq_indexSuggestions {l : List (List Nat × Int)} {i : Nat}
    {s t : Suggestion} (hs : s ∈ indexSuggestions i l)
    (ht : t ∈ indexSuggestions i l)
    (h : s.originalRankIndex = t.originalRankIndex) : s = t := by
  induction l generalizing i with
  | nil => cases hs
  | cons p rest ih =>
      rw [indexSuggestions] at hs ht
      rcases List.mem_cons.mp hs with hs1 | hs2 <;>
        rcases List.mem_cons.mp ht with ht1 | ht2
      · rw [hs1, ht1]
      · exfalso
        have := le_idx_of_mem_indexSuggestions ht2
        rw [hs1] at h
        simp at h
        omega
      · exfalso
        have := le_idx_of_mem_indexSuggestions hs2
        rw [ht1] at h
        simp at h
        omega
      · exact ih hs2 ht2

theorem pairwise_idx_lt_indexSuggestions (l : List (List Nat × Int)) (i : Nat) :
    (indexSuggestions i l).Pairwise
      (fun a b => a.originalRankIndex < b.originalRankIndex) := by
  induction l generalizing i with
  | nil => rw [indexSuggestions]; exact List.Pairwise.nil
  | cons p rest ih =>
      rw [indexSuggestions]
      refine List.Pairwise.cons ?_ (ih (i + 1))
      intro b hb
      have h := le_idx_of_mem_indexSuggestions hb
      exact Nat.lt_of_succ_le h

theorem mem_of_mem_rankSuggestions {maxOut : Nat} {L : List Suggestion}
    {s : Suggestion} (h : s ∈ rankSuggestions maxOut L) :
    s ∈ L ∧ isBestOccurrence L s := by
  unfold rankSuggestions at h
  have h1 := (List.take_sublist _ _).mem h
  rw [List.mem_insertionSort] at h1
  have h2 := List.mem_filter.mp h1
  exact ⟨h2.1, of_decide_eq_true h2.2⟩

theorem length_rankSuggestions_le (maxOut : Nat) (L : List Suggestion) :
    (rankSuggestions maxOut L).length ≤ maxOut := by
  unfold rankSuggestions
  exact List.length_take_le _ _

theorem sorted_rankSuggestions (maxOut : Nat) (L : List Suggestion) :
    (rankSuggestions maxOut L).Sorted suggOrder := by
  unfold rankSuggestions
  exact (List.sorted_insertionSort suggOrder _).sublist (List.take_sublist _ _)

theorem bestOccurrence_unique {L : List Suggestion} {s t : Suggestion}
    (hinj : ∀ u ∈ L, ∀ v ∈ L, u.originalRankIndex = v.originalRankIndex → u = v)
    (hs : s ∈ L) (ht : t ∈ L) (hbs : isBestOccurrence L s)
    (hbt : isBestOccurrence L t) (hw : s.word = t.word) : s = t := by
  have h1 := hbs t ht hw.symm
  have h2 := hbt s hs hw
  have : s.originalRankIndex = t.originalRankIndex := by omega
  exact hinj s hs t ht this

theorem pairwise_word_rankSuggestions (maxOut : Nat)
    (bigram : Option BigramDictionary) (prevWord : Option (List Nat))
    (F : List SearchNode) :
    (rankSuggestions maxOut (terminalSuggestions bigram prevWord F)).Pairwise
      (fun a b => a.word ≠ b.word) := by
  set L := terminalSuggestions bigram prevWord F with hL
  have hinj : ∀ u ∈ L, ∀ v ∈ L,
      u.originalRankIndex = v.originalRankIndex → u = v := by
    intro u hu v hv h
    rw [hL] at hu hv
    unfold terminalSuggestions at hu hv
    exact eq_of_idx_eq_indexSuggestions hu hv h
  have hpl : L.Pairwise (fun a b =>
      a.originalRankIndex < b.originalRankIndex) := by
    rw [hL]; unfold terminalSuggestions
    exact pairwise_idx_lt_indexSuggestions _ 0
  have hf : (L.filter fun s => decide (isBestOccurrence L s)).Pairwise
      (fun a b => a.originalRankIndex < b.originalRankIndex) :=
    hpl.sublist (List.filter_sublist L)
  have hfw : (L.filter fun s => decide (isBestOccurrence L s)).Pairwise
      (fun a b => a.word ≠ b.word) := by
    refine List.Pairwise.imp_of_mem ?_ hf
    intro a b ha hb hlt hweq
    have ha2 := List.mem_filter.mp ha
    have hb2 := List.mem_filter.mp hb
    have : a = b := bestOccurrence_unique hinj ha2.1 hb2.1
      (of_decide_eq_true ha2.2) (of_decide_eq_true hb2.2) hweq
    rw [this] at hlt
    omega
  have hsym : ∀ {x y : Suggestion}, x.word ≠ y.word → y.word ≠ x.word :=
    fun h he => h he.symm
  have hperm := List.perm_insertionSort suggOrder
    (L.filter fun s => decide (isBestOccurrence L s))
  have hsorted : (List.insertionSort suggOrder
      (L.filter fun s => decide (isBestOccurrence L s))).Pairwise
      (fun a b => a.word ≠ b.word) :=
    (List.Perm.pairwise_iff hsym hperm).mpr hfw
  unfold rankSuggestions
  exact hsorted.sublist (List.take_sublist _ _)

theorem terminalSuggestions_word {bigram : Option BigramDictionary}
    {prevWord : Option (List Nat)} {F : List SearchNode} {s : Suggestion}
    (h : s ∈ terminalSuggestions bigram prevWord F) :
    ∃ nd ∈ F, s.word = nd.wordSoFar := by
  unfold terminalSuggestions at h
  have h1 := mem_indexSuggestions h
  rw [List.mem_filterMap] at h1
  obtain ⟨nd, hnd, he⟩ := h1
  refine ⟨nd, hnd, ?_⟩
  cases hf : nd.trie.freq with
  | none => rw [hf] at he; cases he
  | some f =>
      rw [hf] at he
      have he2 : (nd.wordSoFar, combinedFrequency bigram prevWord nd.wordSoFar f) =
          (s.word, s.combinedFrequency) := by simpa using he
      have := congrArg Prod.fst he2
      simpa using this.symm

theorem bestScore_of_mem_rankSuggestions {maxOut : Nat} {L : List Suggestion}
    {s : Suggestion} (h : s ∈ rankSuggestions maxOut L) :
    ∀ u ∈ L, u.word = s.word → u.combinedFrequency ≤ s.combinedFrequency := by
  obtain ⟨_, hb⟩ := mem_of_mem_rankSuggestions h
  intro u hu hw
  rcases hb u hu hw with h1 | h1
  · exact le_of_lt h1
  · exact le_of_eq h1.1

/-! ### getSuggestions branch lemmas -/

theorem getSuggestions_unbound_eq {st : DecoderState} (pInfo : ProximityModel)
    (xs ys ts pids cs : List Int) (isz cp : Int) (b : Bool) (mo : Nat)
    (hd : st.dict = none) :
    getSuggestions st pInfo xs ys ts pids cs isz cp b mo = (emptyResult, st) := by
  unfold getSuggestions
  rw [hd]

theorem getSuggestions_invalid_eq {st : DecoderState} (pInfo : ProximityModel)
    (xs ys ts pids cs : List Int) (isz cp : Int) (b : Bool) (mo : Nat)
    (hv : ¬ validInput xs ys ts pids cs isz cp) :
    getSuggestions st pInfo xs ys ts pids cs isz cp b mo = (emptyResult, st) := by
  unfold getSuggestions
  cases hd : st.dict with
  | none => rfl
  | some d =>
      obtain ⟨t, bg⟩ := d
      simp only [if_neg hv]

theorem getSuggestions_valid_eq {st : DecoderState} {pInfo : ProximityModel}
    {xs ys ts pids cs : List Int} {isz cp : Int} {b : Bool} {mo : Nat}
    {t : Trie} {bg : Option BigramDictionary}
    (hd : st.dict = some (t, bg))
    (hv : validInput xs ys ts pids cs isz cp) :
    getSuggestions st pInfo xs ys ts pids cs isz cp b mo =
      ({ count := (rankSuggestions mo (terminalSuggestions bg st.prevWord
            (decodeWorking st pInfo xs ys ts pids cs isz.toNat cp.toNat))).length,
         outWords := (rankSuggestions mo (terminalSuggestions bg st.prevWord
            (decodeWorking st pInfo xs ys ts pids cs isz.toNat cp.toNat))).map
              (fun s => s.word),
         frequencies := (rankSuggestions mo (terminalSuggestions bg st.prevWord
            (decodeWorking st pInfo xs ys ts pids cs isz.toNat cp.toNat))).map
              (fun s => s.combinedFrequency),
         outputIndices := (rankSuggestions mo (terminalSuggestions bg st.prevWord
            (decodeWorking st pInfo xs ys ts pids cs isz.toNat cp.toNat))).map
              (fun s => s.originalRankIndex) },
       { st with
           frontier := decodeWorking st pInfo xs ys ts pids cs isz.toNat cp.toNat,
           committedFrontier := decodeBase st pInfo xs ys ts pids cs isz.toNat cp.toNat,
           commitPoint := cp.toNat,
           samples := buildSamples xs ys ts pids cs isz.toNat }) := by
  unfold getSuggestions
  rw [hd]
  simp only [if_pos hv]

theorem getSuggestions_preserves (st : DecoderState) (pInfo : ProximityModel)
    (xs ys ts pids cs : List Int) (isz cp : Int) (b : Bool) (mo : Nat) :
    (getSuggestions st pInfo xs ys ts pids cs isz cp b mo).2.dict = st.dict ∧
      (getSuggestions st pInfo xs ys ts pids cs isz cp b mo).2.prevWord = st.prevWord ∧
      (getSuggestions st pInfo xs ys ts pids cs isz cp b mo).2.maxWordLength =
        st.maxWordLength ∧
      (getSuggestions st pInfo xs ys ts pids cs isz cp b mo).2.maxWords = st.maxWords := by
  cases hd : st.dict with
  | none => rw [getSuggestions_unbound_eq _ _ _ _ _ _ _ _ _ _ hd]; exact ⟨hd, rfl, rfl, rfl⟩
  | some d =>
      obtain ⟨t, bg⟩ := d
      by_cases hv : validInput xs ys ts pids cs isz cp
      · rw [getSuggestions_valid_eq hd hv]
        exact ⟨hd, rfl, rfl, rfl⟩
      · rw [getSuggestions_invalid_eq _ _ _ _ _ _ _ _ _ _ hv]
        exact ⟨hd, rfl, rfl, rfl⟩

/-! ### Claim C1: getSuggestions in UNBOUND state -/

/-- C1: for every proximity model, sample arrays, inputSize and
commitPoint, calling `getSuggestions` while no dictionary is bound
(session state UNBOUND, `dict = none`) returns 0 suggestions, writes
nothing into the output buffers, leaves the session unchanged, and — being
a total function — does not crash. -/
theorem getSuggestions_unbound (st : DecoderState) (pInfo : ProximityModel)
    (xs ys ts pids cs : List Int) (inputSize commitPoint : Int)
    (isMainDict : Bool) (maxOut : Nat) (hd : st.dict = none) :
    (getSuggestions st pInfo xs ys ts pids cs inputSize commitPoint
        isMainDict maxOut).1.count = 0 ∧
      (getSuggestions st pInfo xs ys ts pids cs inputSize commitPoint
        isMainDict maxOut).1.outWords = [] ∧
      (getSuggestions st pInfo xs ys ts pids cs inputSize commitPoint
        isMainDict maxOut).2 = st := by
  rw [getSuggestions_unbound_eq _ _ _ _ _ _ _ _ _ _ hd]
  exact ⟨rfl, rfl, rfl⟩

/-- Witness for C1 at a concrete freshly constructed decoder and concrete
input arrays. -/
theorem getSuggestions_unbound_witness :
    (IncrementalDecoderImpl.make 48 18).dict = none ∧
      (getSuggestions (IncrementalDecoderImpl.make 48 18) pmExact
          [0] [0] [0] [7] [1] 1 0 true 18).1.count = 0 ∧
      (getSuggestions (IncrementalDecoderImpl.make 48 18) pmExact
          [0] [0] [0] [7] [1] 1 0 true 18).1.outWords = [] ∧
      (getSuggestions (IncrementalDecoderImpl.make 48 18) pmExact
          [0] [0] [0] [7] [1] 1 0 true 18).2 = IncrementalDecoderImpl.make 48 18 :=
  ⟨rfl, getSuggestions_unbound (IncrementalDecoderImpl.make 48 18) pmExact
    [0] [0] [0] [7] [1] 1 0 true 18 rfl⟩

/-! ### Claim C2: invalid input shape -/

/-- C2: a `getSuggestions` call with `inputSize <= 0` or with a per-sample
array shorter than `inputSize` returns 0 suggestions, writes nothing, does
not crash, and leaves the decoder state — frontier, commit-point snapshot,
commit point and buffered samples — entirely unchanged. -/
theorem getSuggestions_invalid_input (st : DecoderState) (pInfo : ProximityModel)
    (xs ys ts pids cs : List Int) (inputSize commitPoint : Int)
    (isMainDict : Bool) (maxOut : Nat)
    (h : inputSize ≤ 0 ∨ (xs.length : Int) < inputSize ∨
      (ys.length : Int) < inputSize ∨ (ts.length : Int) < inputSize ∨
      (pids.length : Int) < inputSize ∨ (cs.length : Int) < inputSize) :
    (getSuggestions st pInfo xs ys ts pids cs inputSize commitPoint
        isMainDict maxOut).1.count = 0 ∧
      (getSuggestions st pInfo xs ys ts pids cs inputSize commitPoint
        isMainDict maxOut).1.outWords = [] ∧
      (getSuggestions st pInfo xs ys ts pids cs inputSize commitPoint
        isMainDict maxOut).2 = st := by
  have hv : ¬ validInput xs ys ts pids cs inputSize commitPoint := by
    unfold validInput
    omega
  rw [getSuggestions_invalid_eq _ _ _ _ _ _ _ _ _ _ hv]
  exact ⟨rfl, rfl, rfl⟩

/-- Witness for C2 at a concrete READY session and a degenerate
`inputSize = 0` call. -/
theorem getSuggestions_invalid_input_witness :
    ((0 : Int) ≤ 0 ∨ (([] : List Int).length : Int) < 0 ∨
      (([] : List Int).length : Int) < 0 ∨ (([] : List Int).length : Int) < 0 ∨
      (([] : List Int).length : Int) < 0 ∨ (([] : List Int).length : Int) < 0) ∧
      (getSuggestions stReady pmExact [] [] [] [] [] 0 0 true 18).1.count = 0 ∧
      (getSuggestions stReady pmExact [] [] [] [] [] 0 0 true 18).1.outWords = [] ∧
      (getSuggestions stReady pmExact [] [] [] [] [] 0 0 true 18).2 = stReady :=
  ⟨Or.inl (by decide),
    getSuggestions_invalid_input stReady pmExact [] [] [] [] [] 0 0 true 18
      (Or.inl (by decide))⟩

/-! ### Claim C3: reset clears exactly the gesture-local state -/

/-- C3: `reset()` clears exactly the gesture-local state: the frontier and
the commit-point snapshot return to the single root node at the bound
dictionary's trie root, the commit point becomes 0 and the buffered
samples are dropped, while the bound unigram and bigram dictionaries and
the prevWord context are left unchanged. -/
theorem reset_clears_gesture_state (st : DecoderState) :
    (reset st).dict = st.dict ∧ (reset st).prevWord = st.prevWord ∧
      (reset st).maxWordLength = st.maxWordLength ∧
      (reset st).maxWords = st.maxWords ∧
      (reset st).commitPoint = 0 ∧ (reset st).samples = [] ∧
      (reset st).frontier = rootFrontier st.dict ∧
      (reset st).committedFrontier = rootFrontier st.dict ∧
      ∀ t bg, st.dict = some (t, bg) →
        (reset st).frontier =
          [{ trie := t, cumulativeScore := 0, gestureRangeStart := 0,
             gestureRangeEnd := 0, wordSoFar := [] }] := by
  refine ⟨rfl, rfl, rfl, rfl, rfl, rfl, rfl, rfl, ?_⟩
  intro t bg hd
  show rootFrontier st.dict = _
  rw [hd]
  rfl

/-- Witness for C3 at the concrete READY session. -/
theorem reset_clears_gesture_state_witness :
    stReady.dict = some (trieTo, none) ∧
      (reset stReady).frontier =
        [{ trie := trieTo, cumulativeScore := 0, gestureRangeStart := 0,
           gestureRangeEnd := 0, wordSoFar := [] }] :=
  ⟨rfl, ((reset_clears_gesture_state stReady).2.2.2.2.2.2.2.2) trieTo none rfl⟩

/-! ### Claim C10: IncrementalDecoder is behaviorally IncrementalDecoderImpl -/

/-- C10: the concrete `IncrementalDecoder` is behaviorally identical to
`IncrementalDecoderImpl`: its constructor forwards `maxWordLength` and
`maxWords` unchanged to the `IncrementalDecoderImpl` constructor, it
overrides no operation and adds no state, and every sequence of contract
operations produces the same results and the same final state on both. -/
theorem incrementalDecoder_behaviorally_identical (maxWordLength maxWords : Nat) :
    IncrementalDecoder.make maxWordLength maxWords =
        IncrementalDecoderImpl.make maxWordLength maxWords ∧
      (IncrementalDecoder.make maxWordLength maxWords).maxWordLength =
        maxWordLength ∧
      (IncrementalDecoder.make maxWordLength maxWords).maxWords = maxWords ∧
      ∀ ops : List DecoderOp,
        runOps (IncrementalDecoder.make maxWordLength maxWords) ops =
          runOps (IncrementalDecoderImpl.make maxWordLength maxWords) ops :=
  ⟨rfl, rfl, rfl, fun _ => rfl⟩

/-! ### Claim C4: determinism of full decodes -/

theorem decodeBase_zero (st : DecoderState) (pInfo : ProximityModel)
    (xs ys ts pids cs : List Int) (n : Nat) :
    decodeBase st pInfo xs ys ts pids cs n 0 = rootFrontier st.dict := by
  unfold decodeBase
  simp

theorem decodeWorking_zero (st : DecoderState) (pInfo : ProximityModel)
    (xs ys ts pids cs : List Int) (n : Nat) :
    decodeWorking st pInfo xs ys ts pids cs n 0 =
      advanceFrontier pInfo st.maxWordLength st.maxWords (pids.getD 0 0)
        (rootFrontier st.dict) (indexedSamples xs ys ts pids cs n) := by
  unfold decodeWorking
  rw [decodeBase_zero]
  simp

theorem getSuggestions_zero_congr {st st' : DecoderState}
    (pInfo : ProximityModel) (xs ys ts pids cs : List Int) (isz : Int)
    (b : Bool) (mo : Nat) (hdict : st'.dict = st.dict)
    (hprev : st'.prevWord = st.prevWord)
    (hmwl : st'.maxWordLength = st.maxWordLength)
    (hmw : st'.maxWords = st.maxWords) :
    (getSuggestions st' pInfo xs ys ts pids cs isz 0 b mo).1 =
      (getSuggestions st pInfo xs ys ts pids cs isz 0 b mo).1 := by
  cases hd : st.dict with
  | none =>
      rw [getSuggestions_unbound_eq _ _ _ _ _ _ _ _ _ _ (hdict.trans hd),
        getSuggestions_unbound_eq _ _ _ _ _ _ _ _ _ _ hd]
  | some d =>
      obtain ⟨t, bg⟩ := d
      by_cases hv : validInput xs ys ts pids cs isz 0
      · rw [getSuggestions_valid_eq (hdict.trans hd) hv,
          getSuggestions_valid_eq hd hv]
        have hw : decodeWorking st' pInfo xs ys ts pids cs isz.toNat
            ((0 : Int)).toNat =
            decodeWorking st pInfo xs ys ts pids cs isz.toNat ((0 : Int)).toNat := by
          show decodeWorking st' pInfo xs ys ts pids cs isz.toNat 0 =
            decodeWorking st pInfo xs ys ts pids cs isz.toNat 0
          rw [decodeWorking_zero, decodeWorking_zero, hdict, hmwl, hmw]
        rw [hw, hprev]
      · rw [getSuggestions_invalid_eq _ _ _ _ _ _ _ _ _ _ hv,
          getSuggestions_invalid_eq _ _ _ _ _ _ _ _ _ _ hv]

/-- C4: for a fixed bound dictionary, proximity model and full sample
arrays, two successive full (non-incremental, `commitPoint = 0`) decodes
of the same gesture — the second issued from the session state the first
left behind — return identical ranked suggestion lists: same words, same
frequencies, same order, same count. -/
theorem getSuggestions_deterministic (st : DecoderState)
    (pInfo : ProximityModel) (xs ys ts pids cs : List Int) (inputSize : Int)
    (isMainDict : Bool) (maxOut : Nat) :
    (getSuggestions
        (getSuggestions st pInfo xs ys ts pids cs inputSize 0 isMainDict maxOut).2
        pInfo xs ys ts pids cs inputSize 0 isMainDict maxOut).1 =
      (getSuggestions st pInfo xs ys ts pids cs inputSize 0 isMainDict maxOut).1 := by
  obtain ⟨h1, h2, h3, h4⟩ :=
    getSuggestions_preserves st pInfo xs ys ts pids cs inputSize 0 isMainDict maxOut
  exact getSuggestions_zero_congr pInfo xs ys ts pids cs inputSize isMainDict maxOut
    h1 h2 h3 h4

/-! ### Claim C5: incremental consistency -/

theorem advanceFrontier_append (pInfo : ProximityModel)
    (maxWordLength maxWords : Nat) (activePid : Int) (F : List SearchNode)
    (A B : List (Nat × GesturePoint)) :
    advanceFrontier pInfo maxWordLength maxWords activePid F (A ++ B) =
      advanceFrontier pInfo maxWordLength maxWords activePid
        (advanceFrontier pInfo maxWordLength maxWords activePid F A) B :=
  List.foldl_append _ _ _ _

theorem decodeWorking_resume (st' : DecoderState) (pInfo : ProximityModel)
    (xs ys ts pids cs : List Int) (n p : Nat) (hp : 0 < p)
    (hcp : st'.commitPoint = 0) :
    decodeWorking st' pInfo xs ys ts pids cs n p =
      advanceFrontier pInfo st'.maxWordLength st'.maxWords (pids.getD 0 0)
        (advanceFrontier pInfo st'.maxWordLength st'.maxWords (pids.getD 0 0)
          st'.committedFrontier ((indexedSamples xs ys ts pids cs n).take p))
        ((indexedSamples xs ys ts pids cs n).drop p) := by
  unfold decodeWorking decodeBase
  rw [if_neg (Nat.pos_iff_ne_zero.mp hp), hcp,
    if_neg (Nat.pos_iff_ne_zero.mp hp), if_pos hp, List.drop_zero]

/-- C5: decoding a gesture in one shot (`commitPoint = 0`, full array) and
decoding it in two calls (first the prefix of length `p` with
`commitPoint = 0`, then the full array with `commitPoint = p`) yield the
same final suggestion list and the same working frontier. -/
theorem getSuggestions_incremental (st : DecoderState) (pInfo : ProximityModel)
    (xs ys ts pids cs : List Int) (p n : Nat) (isMainDict : Bool) (maxOut : Nat)
    (hp : 0 < p) (hpn : p ≤ n)
    (hx : n ≤ xs.length) (hy : n ≤ ys.length) (htl : n ≤ ts.length)
    (hpidl : n ≤ pids.length) (hcl : n ≤ cs.length) :
    (getSuggestions
        (getSuggestions st pInfo xs ys ts pids cs (p : Int) 0 isMainDict maxOut).2
        pInfo xs ys ts pids cs (n : Int) (p : Int) isMainDict maxOut).1 =
      (getSuggestions st pInfo xs ys ts pids cs (n : Int) 0 isMainDict maxOut).1 ∧
    (getSuggestions
        (getSuggestions st pInfo xs ys ts pids cs (p : Int) 0 isMainDict maxOut).2
        pInfo xs ys ts pids cs (n : Int) (p : Int) isMainDict maxOut).2.frontier =
      (getSuggestions st pInfo xs ys ts pids cs (n : Int) 0 isMainDict maxOut).2.frontier := by
  have hv1 : validInput xs ys ts pids cs (p : Int) 0 := by
    unfold validInput; omega
  have hvn : validInput xs ys ts pids cs (n : Int) 0 := by
    unfold validInput; omega
  have hv2 : validInput xs ys ts pids cs (n : Int) (p : Int) := by
    unfold validInput; omega
  cases hd : st.dict with
  | none =>
      rw [getSuggestions_unbound_eq _ _ _ _ _ _ _ _ _ _ hd]
      rw [getSuggestions_unbound_eq _ _ _ _ _ _ _ _ _ _ hd]
      rw [getSuggestions_unbound_eq _ _ _ _ _ _ _ _ _ _ hd]
      exact ⟨rfl, rfl⟩
  | some d =>
      obtain ⟨t, bg⟩ := d
      have hd1 : (getSuggestions st pInfo xs ys ts pids cs (p : Int) 0
          isMainDict maxOut).2.dict = some (t, bg) := by
        rw [(getSuggestions_preserves st pInfo xs ys ts pids cs (p : Int) 0
          isMainDict maxOut).1, hd]
      rw [getSuggestions_valid_eq hd1 hv2]
      rw [getSuggestions_valid_eq hd hvn]
      rw [getSuggestions_valid_eq hd hv1]
      dsimp only
      have hW :
          decodeWorking
            { st with
                frontier := decodeWorking st pInfo xs ys ts pids cs
                  ((p : Int)).toNat ((0 : Int)).toNat,
                committedFrontier := decodeBase st pInfo xs ys ts pids cs
                  ((p : Int)).toNat ((0 : Int)).toNat,
                commitPoint := ((0 : Int)).toNat,
                samples := buildSamples xs ys ts pids cs ((p : Int)).toNat }
            pInfo xs ys ts pids cs ((n : Int)).toNat ((p : Int)).toNat =
          decodeWorking st pInfo xs ys ts pids cs ((n : Int)).toNat
            ((0 : Int)).toNat := by
        show decodeWorking
            { st with
                frontier := decodeWorking st pInfo xs ys ts pids cs p 0,
                committedFrontier := decodeBase st pInfo xs ys ts pids cs p 0,
                commitPoint := 0,
                samples := buildSamples xs ys ts pids cs p }
            pInfo xs ys ts pids cs n p =
          decodeWorking st pInfo xs ys ts pids cs n 0
        rw [decodeWorking_resume _ pInfo xs ys ts pids cs n p hp rfl]
        dsimp only
        rw [decodeBase_zero, ← advanceFrontier_append, List.take_append_drop,
          decodeWorking_zero]
      rw [hW]
      exact ⟨rfl, rfl⟩

/-- Witness for C5: a three-sample gesture on the concrete session,
decoded in one shot and as a length-2 prefix followed by the full array. -/
theorem getSuggestions_incremental_witness :
    (0 < 2 ∧ 2 ≤ 3 ∧ 3 ≤ ([(0 : Int), 0, 0]).length) ∧
      (getSuggestions
          (getSuggestions stReady pmExact [0, 0, 0] [0, 0, 0] [0, 1, 2]
            [7, 7, 7] [1, 2, 2] ((2 : Nat) : Int) 0 true 18).2
          pmExact [0, 0, 0] [0, 0, 0] [0, 1, 2] [7, 7, 7] [1, 2, 2]
          ((3 : Nat) : Int) ((2 : Nat) : Int) true 18).1 =
        (getSuggestions stReady pmExact [0, 0, 0] [0, 0, 0] [0, 1, 2]
          [7, 7, 7] [1, 2, 2] ((3 : Nat) : Int) 0 true 18).1 :=
  ⟨⟨by decide, by decide, by decide⟩,
    (getSuggestions_incremental stReady pmExact [0, 0, 0] [0, 0, 0] [0, 1, 2]
      [7, 7, 7] [1, 2, 2] 2 3 true 18 (by decide) (by decide) (by decide)
      (by decide) (by decide) (by decide) (by decide)).1⟩

/-! ### Claim C7: commit-point monotonicity and freezing -/

/-- C7: on any `getSuggestions` call whose `commitPoint` is at least the
session's current commit point (the non-decreasing contract within one
gesture), the stored commit point becomes the call's `commitPoint` (hence
never decreases); when the commit point is unchanged the frozen
commit-point snapshot is carried over node-for-node — no frozen
SearchNode's score changes; and when the commit point grows the new
snapshot arises from the old frozen nodes only by folding the newly
committed samples, so every node of the new snapshot extends some old
frozen node and any node it left unextended is kept entirely unchanged. -/
theorem getSuggestions_commit_freezing (st : DecoderState)
    (pInfo : ProximityModel) (xs ys ts pids cs : List Int)
    (inputSize commitPoint : Int) (isMainDict : Bool) (maxOut : Nat)
    (t : Trie) (bg : Option BigramDictionary) (hd : st.dict = some (t, bg))
    (hv : validInput xs ys ts pids cs inputSize commitPoint)
    (hmono : st.commitPoint ≤ commitPoint.toNat) :
    (getSuggestions st pInfo xs ys ts pids cs inputSize commitPoint
        isMainDict maxOut).2.commitPoint = commitPoint.toNat ∧
    st.commitPoint ≤ (getSuggestions st pInfo xs ys ts pids cs inputSize
        commitPoint isMainDict maxOut).2.commitPoint ∧
    (0 < st.commitPoint → commitPoint.toNat = st.commitPoint →
      (getSuggestions st pInfo xs ys ts pids cs inputSize commitPoint
        isMainDict maxOut).2.committedFrontier = st.committedFrontier) ∧
    (st.commitPoint < commitPoint.toNat →
      (getSuggestions st pInfo xs ys ts pids cs inputSize commitPoint
        isMainDict maxOut).2.committedFrontier =
        advanceFrontier pInfo st.maxWordLength st.maxWords (pids.getD 0 0)
          st.committedFrontier
          (((indexedSamples xs ys ts pids cs inputSize.toNat).take
            commitPoint.toNat).drop st.commitPoint)) ∧
    (0 < st.commitPoint →
      ∀ m ∈ (getSuggestions st pInfo xs ys ts pids cs inputSize commitPoint
        isMainDict maxOut).2.committedFrontier,
        ∃ q ∈ st.committedFrontier,
          q.wordSoFar <+: m.wordSoFar ∧ (m.wordSoFar = q.wordSoFar → m = q)) := by
  have hB3 : ∀ (_ : 0 < st.commitPoint)
      (he : commitPoint.toNat = st.commitPoint),
      decodeBase st pInfo xs ys ts pids cs inputSize.toNat commitPoint.toNat =
        st.committedFrontier := by
    intro h0 he
    unfold decodeBase
    rw [if_neg (by omega : ¬ commitPoint.toNat = 0), if_pos he]
  have hB4 : st.commitPoint < commitPoint.toNat →
      decodeBase st pInfo xs ys ts pids cs inputSize.toNat commitPoint.toNat =
        advanceFrontier pInfo st.maxWordLength st.maxWords (pids.getD 0 0)
          st.committedFrontier
          (((indexedSamples xs ys ts pids cs inputSize.toNat).take
            commitPoint.toNat).drop st.commitPoint) := by
    intro hlt
    unfold decodeBase
    rw [if_neg (by omega : ¬ commitPoint.toNat = 0),
      if_neg (by omega : ¬ commitPoint.toNat = st.commitPoint), if_pos hlt]
  rw [getSuggestions_valid_eq hd hv]
  refine ⟨rfl, hmono, ?_, ?_, ?_⟩
  · intro h0 he
    show decodeBase st pInfo xs ys ts pids cs inputSize.toNat
      commitPoint.toNat = st.committedFrontier
    exact hB3 h0 he
  · intro hlt
    show decodeBase st pInfo xs ys ts pids cs inputSize.toNat
      commitPoint.toNat = _
    exact hB4 hlt
  · intro hpos m hm
    have hm2 : m ∈ decodeBase st pInfo xs ys ts pids cs inputSize.toNat
        commitPoint.toNat := hm
    rcases Nat.lt_or_ge st.commitPoint commitPoint.toNat with hlt | hge
    · rw [hB4 hlt] at hm2
      exact exists_ancestor_of_mem_advanceFrontier _ _ hm2
    · have he : commitPoint.toNat = st.commitPoint := le_antisymm hge hmono
      rw [hB3 hpos he] at hm2
      exact ⟨m, hm2, List.prefix_rfl, fun _ => rfl⟩

/-- Witness for C7 at the concrete READY session, committing one of two
samples. -/
theorem getSuggestions_commit_freezing_witness :
    stReady.dict = some (trieTo, none) ∧
      validInput [0, 0] [0, 0] [0, 1] [7, 7] [1, 2] 2 1 ∧
      stReady.commitPoint ≤ (1 : Int).toNat ∧
      (getSuggestions stReady pmExact [0, 0] [0, 0] [0, 1] [7, 7] [1, 2]
        2 1 true 18).2.commitPoint = (1 : Int).toNat :=
  ⟨rfl, by decide, by decide,
    (getSuggestions_commit_freezing stReady pmExact [0, 0] [0, 0] [0, 1]
      [7, 7] [1, 2] 2 1 true 18 trieTo none rfl (by decide) (by decide)).1⟩

/-! ### Claim C6: capacity bounds -/

theorem frontierOK_decodeBase {maxWordLength maxWords : Nat}
    (st : DecoderState) (pInfo : ProximityModel) (xs ys ts pids cs : List Int)
    (n c : Nat) (hmw : 1 ≤ maxWords)
    (hst : sessionOK maxWordLength maxWords st) :
    frontierOK maxWordLength maxWords
      (decodeBase st pInfo xs ys ts pids cs n c) := by
  obtain ⟨hm1, hm2, hf, hcf⟩ := hst
  unfold decodeBase
  rw [hm1, hm2]
  split
  · exact frontierOK_rootFrontier hmw _
  · split
    · exact hcf
    · split
      · exact frontierOK_advanceFrontier hcf
      · exact frontierOK_advanceFrontier (frontierOK_rootFrontier hmw _)

theorem frontierOK_decodeWorking {maxWordLength maxWords : Nat}
    (st : DecoderState) (pInfo : ProximityModel) (xs ys ts pids cs : List Int)
    (n c : Nat) (hmw : 1 ≤ maxWords)
    (hst : sessionOK maxWordLength maxWords st) :
    frontierOK maxWordLength maxWords
      (decodeWorking st pInfo xs ys ts pids cs n c) := by
  have hb := frontierOK_decodeBase st pInfo xs ys ts pids cs n c hmw hst
  unfold decodeWorking
  rw [hst.1, hst.2.1]
  exact frontierOK_advanceFrontier hb

theorem sessionOK_runOp {maxWordLength maxWords : Nat} (st : DecoderState)
    (op : DecoderOp) (hmw : 1 ≤ maxWords)
    (hst : sessionOK maxWordLength maxWords st) :
    sessionOK maxWordLength maxWords (runOp st op).1 := by
  cases op with
  | opSetDict d b =>
      show sessionOK maxWordLength maxWords (setDict st d b)
      exact ⟨hst.1, hst.2.1, frontierOK_rootFrontier hmw (some (d, b)),
        frontierOK_rootFrontier hmw (some (d, b))⟩
  | opSetPrevWord w len =>
      show sessionOK maxWordLength maxWords (setPrevWord st w len)
      unfold setPrevWord
      split
      · exact ⟨hst.1, hst.2.1, hst.2.2.1, hst.2.2.2⟩
      · exact ⟨hst.1, hst.2.1, hst.2.2.1, hst.2.2.2⟩
  | opReset =>
      show sessionOK maxWordLength maxWords (reset st)
      exact ⟨hst.1, hst.2.1, frontierOK_rootFrontier hmw st.dict,
        frontierOK_rootFrontier hmw st.dict⟩
  | opGetSuggestions pInfo xs ys ts pids cs isz cp b mo =>
      show sessionOK maxWordLength maxWords
        (getSuggestions st pInfo xs ys ts pids cs isz cp b mo).2
      cases hd : st.dict with
      | none => rw [getSuggestions_unbound_eq _ _ _ _ _ _ _ _ _ _ hd]; exact hst
      | some d =>
          obtain ⟨t, bg⟩ := d
          by_cases hv : validInput xs ys ts pids cs isz cp
          · rw [getSuggestions_valid_eq hd hv]
            exact ⟨hst.1, hst.2.1,
              frontierOK_decodeWorking st pInfo xs ys ts pids cs _ _ hmw hst,
              frontierOK_decodeBase st pInfo xs ys ts pids cs _ _ hmw hst⟩
          · rw [getSuggestions_invalid_eq _ _ _ _ _ _ _ _ _ _ hv]; exact hst

theorem reachable_sessionOK {maxWordLength maxWords : Nat}
    (hmw : 1 ≤ maxWords) (st : DecoderState)
    (h : Reachable maxWordLength maxWords st) :
    sessionOK maxWordLength maxWords st := by
  induction h with
  | init =>
      exact ⟨rfl, rfl, ⟨Nat.zero_le _, by intro nd hnd; cases hnd⟩,
        ⟨Nat.zero_le _, by intro nd hnd; cases hnd⟩⟩
  | step st' op h ih => exact sessionOK_runOp st' op hmw ih

theorem getSuggestions_word_length_le {maxWordLength maxWords : Nat}
    (st : DecoderState) (pInfo : ProximityModel) (xs ys ts pids cs : List Int)
    (isz cp : Int) (b : Bool) (mo : Nat) (hmw : 1 ≤ maxWords)
    (hst : sessionOK maxWordLength maxWords st) :
    ∀ w ∈ (getSuggestions st pInfo xs ys ts pids cs isz cp b mo).1.outWords,
      w.length ≤ maxWordLength := by
  cases hd : st.dict with
  | none =>
      rw [getSuggestions_unbound_eq _ _ _ _ _ _ _ _ _ _ hd]
      intro w hw
      cases hw
  | some d =>
      obtain ⟨t, bg⟩ := d
      by_cases hv : validInput xs ys ts pids cs isz cp
      · rw [getSuggestions_valid_eq hd hv]
        intro w hw
        rw [List.mem_map] at hw
        obtain ⟨s, hs, rfl⟩ := hw
        obtain ⟨nd, hnd, hword⟩ :=
          terminalSuggestions_word (mem_of_mem_rankSuggestions hs).1
        rw [hword]
        exact (frontierOK_decodeWorking st pInfo xs ys ts pids cs _ _
          hmw hst).2 nd hnd
      · rw [getSuggestions_invalid_eq _ _ _ _ _ _ _ _ _ _ hv]
        intro w hw
        cases hw

/-- C6: at every point of any operation sequence on a decoder constructed
with `(maxWordLength, maxWords)` — with the spec-implied `maxWords ≥ 1` so
the root hypothesis fits — the working frontier and the commit-point
snapshot hold at most `maxWords` live hypotheses, no SearchNode's word
exceeds `maxWordLength`, every suggestion a call would return is at most
`maxWordLength` long, and advancing any frontier within capacity keeps
every intermediate frontier within capacity. -/
theorem frontier_capacity_invariant (maxWordLength maxWords : Nat)
    (st : DecoderState) (h : Reachable maxWordLength maxWords st)
    (hmw : 1 ≤ maxWords) :
    st.frontier.length ≤ maxWords ∧
      (∀ nd ∈ st.frontier, nd.wordSoFar.length ≤ maxWordLength) ∧
      st.committedFrontier.length ≤ maxWords ∧
      (∀ nd ∈ st.committedFrontier, nd.wordSoFar.length ≤ maxWordLength) ∧
      (∀ (pInfo : ProximityModel) (xs ys ts pids cs : List Int)
        (isz cp : Int) (b : Bool) (mo : Nat),
        ∀ w ∈ (getSuggestions st pInfo xs ys ts pids cs isz cp b mo).1.outWords,
          w.length ≤ maxWordLength) ∧
      (∀ (pInfo : ProximityModel) (activePid : Int) (F : List SearchNode)
        (pending : List (Nat × GesturePoint)), F.length ≤ maxWords →
        (advanceFrontier pInfo maxWordLength maxWords activePid F
          pending).length ≤ maxWords) := by
  have hst := reachable_sessionOK hmw st h
  exact ⟨hst.2.2.1.1, hst.2.2.1.2, hst.2.2.2.1, hst.2.2.2.2,
    fun pInfo xs ys ts pids cs isz cp b mo =>
      getSuggestions_word_length_le st pInfo xs ys ts pids cs isz cp b mo
        hmw hst,
    fun pInfo activePid F pending hF =>
      length_advanceFrontier_le pending F hF⟩

/-- Witness for C6 at the concrete READY session reached by one `setDict`
from a fresh decoder. -/
theorem frontier_capacity_invariant_witness :
    1 ≤ 18 ∧ stReady.frontier.length ≤ 18 :=
  ⟨by decide,
    (frontier_capacity_invariant 48 18 stReady
      (Reachable.step (IncrementalDecoderImpl.make 48 18)
        (DecoderOp.opSetDict trieTo none) Reachable.init) (by decide)).1⟩

/-! ### Claim C8: the ranking contract of getSuggestions -/

/-- C8: on a valid call, the suggestion list written by `getSuggestions`
contains each word text at most once (keeping the highest-scoring
instance), is sorted descending by combined frequency with ties broken by
earlier discovery order, is truncated to the caller's output capacity, the
returned value equals the number of suggestions actually written, and
ranking does not mutate the session: the resulting state is the same for
every output capacity. -/
theorem getSuggestions_ranking_contract (st : DecoderState)
    (pInfo : ProximityModel) (xs ys ts pids cs : List Int)
    (inputSize commitPoint : Int) (isMainDict : Bool) (maxOut : Nat)
    (t : Trie) (bg : Option BigramDictionary) (hd : st.dict = some (t, bg))
    (hv : validInput xs ys ts pids cs inputSize commitPoint) :
    (getSuggestions st pInfo xs ys ts pids cs inputSize commitPoint
        isMainDict maxOut).1.count =
      (getSuggestions st pInfo xs ys ts pids cs inputSize commitPoint
        isMainDict maxOut).1.outWords.length ∧
    (getSuggestions st pInfo xs ys ts pids cs inputSize commitPoint
        isMainDict maxOut).1.count ≤ maxOut ∧
    (getSuggestions st pInfo xs ys ts pids cs inputSize commitPoint
        isMainDict maxOut).1.outWords.Pairwise (fun a b => a ≠ b) ∧
    (getSuggestions st pInfo xs ys ts pids cs inputSize commitPoint
        isMainDict maxOut).1.frequencies.Pairwise (fun a b => b ≤ a) ∧
    (rankSuggestions maxOut (terminalSuggestions bg st.prevWord
        (decodeWorking st pInfo xs ys ts pids cs inputSize.toNat
          commitPoint.toNat))).Sorted suggOrder ∧
    (getSuggestions st pInfo xs ys ts pids cs inputSize commitPoint
        isMainDict maxOut).1.outWords =
      (rankSuggestions maxOut (terminalSuggestions bg st.prevWord
        (decodeWorking st pInfo xs ys ts pids cs inputSize.toNat
          commitPoint.toNat))).map (fun s => s.word) ∧
    (∀ s ∈ rankSuggestions maxOut (terminalSuggestions bg st.prevWord
        (decodeWorking st pInfo xs ys ts pids cs inputSize.toNat
          commitPoint.toNat)),
      s ∈ terminalSuggestions bg st.prevWord
        (decodeWorking st pInfo xs ys ts pids cs inputSize.toNat
          commitPoint.toNat) ∧
      ∀ u ∈ terminalSuggestions bg st.prevWord
        (decodeWorking st pInfo xs ys ts pids cs inputSize.toNat
          commitPoint.toNat),
        u.word = s.word → u.combinedFrequency ≤ s.combinedFrequency) ∧
    (∀ maxOut' : Nat,
      (getSuggestions st pInfo xs ys ts pids cs inputSize commitPoint
        isMainDict maxOut').2 =
      (getSuggestions st pInfo xs ys ts pids cs inputSize commitPoint
        isMainDict maxOut).2) := by
  rw [getSuggestions_valid_eq hd hv]
  refine ⟨(List.length_map _ _).symm, length_rankSuggestions_le _ _, ?_, ?_,
    sorted_rankSuggestions _ _, rfl, ?_, ?_⟩
  · exact List.pairwise_map.mpr (pairwise_word_rankSuggestions _ _ _ _)
  · refine List.pairwise_map.mpr ?_
    refine List.Pairwise.imp ?_ (sorted_rankSuggestions maxOut _)
    intro a b hab
    unfold suggOrder at hab
    omega
  · intro s hs
    exact ⟨(mem_of_mem_rankSuggestions hs).1,
      bestScore_of_mem_rankSuggestions hs⟩
  · intro maxOut'
    rw [getSuggestions_valid_eq hd hv]

/-- Witness for C8 at the concrete session and a two-sample gesture. -/
theorem getSuggestions_ranking_contract_witness :
    stReady.dict = some (trieTo, none) ∧
      validInput [0, 0] [0, 0] [0, 1] [7, 7] [1, 2] 2 0 ∧
      (getSuggestions stReady pmExact [0, 0] [0, 0] [0, 1] [7, 7] [1, 2]
        2 0 true 18).1.count =
      (getSuggestions stReady pmExact [0, 0] [0, 0] [0, 1] [7, 7] [1, 2]
        2 0 true 18).1.outWords.length :=
  ⟨rfl, by decide,
    (getSuggestions_ranking_contract stReady pmExact [0, 0] [0, 0] [0, 1]
      [7, 7] [1, 2] 2 0 true 18 trieTo none rfl (by decide)).1⟩

/-! ### Claim C9: bigram re-scoring combines both signals -/

/-- C9: when `prevWord` is set and the bigram dictionary has an entry for
(prevWord, candidate), the ranker's combined frequency adds the bigram
boost to the unigram frequency rather than using either exclusively: for
two candidates where the first unigram-outranks the second and only the
second receives a boost, the combined order is unchanged when the unigram
gap exceeds the boost and reversed when the boost exceeds the gap; and the
ranker orders any two distinct-word suggestions by their combined
frequencies. -/
theorem ranker_combines_bigram_and_unigram (b : BigramDictionary)
    (prev w1 w2 : List Nat) (f1 f2 boost : Nat)
    (h1 : lookupBigram b prev w1 = none)
    (h2 : lookupBigram b prev w2 = some boost)
    (hgt : f2 < f1) :
    ((boost : Int) < (f1 : Int) - (f2 : Int) →
      combinedFrequency (some b) (some prev) w2 f2 <
        combinedFrequency (some b) (some prev) w1 f1) ∧
    ((f1 : Int) - (f2 : Int) < (boost : Int) →
      combinedFrequency (some b) (some prev) w1 f1 <
        combinedFrequency (some b) (some prev) w2 f2) ∧
    (∀ s1 s2 : Suggestion, s1.word ≠ s2.word →
      s1.combinedFrequency < s2.combinedFrequency →
      rankSuggestions 2 [s1, s2] = [s2, s1]) ∧
    (∀ s1 s2 : Suggestion, s1.word ≠ s2.word →
      s2.combinedFrequency < s1.combinedFrequency →
      rankSuggestions 2 [s1, s2] = [s1, s2]) := by
  have e1 : combinedFrequency (some b) (some prev) w1 f1 = (f1 : Int) := by
    unfold combinedFrequency
    dsimp only
    rw [h1]
  have e2 : combinedFrequency (some b) (some prev) w2 f2 =
      (f2 : Int) + (boost : Int) := by
    unfold combinedFrequency
    dsimp only
    rw [h2]
  have hbest : ∀ s1 s2 : Suggestion, s1.word ≠ s2.word →
      List.filter (fun s => decide (isBestOccurrence [s1, s2] s)) [s1, s2] =
        [s1, s2] := by
    intro s1 s2 hw
    have hb1 : isBestOccurrence [s1, s2] s1 := by
      intro u hu hword
      rcases List.mem_cons.mp hu with heq | hu2
      · subst heq
        exact Or.inr ⟨rfl, le_refl _⟩
      · rw [List.mem_singleton] at hu2
        subst hu2
        exact absurd hword.symm hw
    have hb2 : isBestOccurrence [s1, s2] s2 := by
      intro u hu hword
      rcases List.mem_cons.mp hu with heq | hu2
      · subst heq
        exact absurd hword hw
      · rw [List.mem_singleton] at hu2
        subst hu2
        exact Or.inr ⟨rfl, le_refl _⟩
    rw [@List.filter_cons_of_pos _ (fun s => decide (isBestOccurrence [s1, s2] s))
        s1 [s2] (decide_eq_true hb1),
      @List.filter_cons_of_pos _ (fun s => decide (isBestOccurrence [s1, s2] s))
        s2 [] (decide_eq_true hb2), List.filter_nil]
  refine ⟨?_, ?_, ?_, ?_⟩
  · intro hb
    rw [e1, e2]
    omega
  · intro hb
    rw [e1, e2]
    omega
  · intro s1 s2 hw hlt
    have hns : ¬ suggOrder s1 s2 := by
      unfold suggOrder
      omega
    unfold rankSuggestions
    rw [hbest s1 s2 hw]
    simp [List.insertionSort, List.orderedInsert, hns]
  · intro s1 s2 hw hlt
    have hs : suggOrder s1 s2 := Or.inl hlt
    unfold rankSuggestions
    rw [hbest s1 s2 hw]
    simp [List.insertionSort, List.orderedInsert, hs]

/-- Witness for C9: a bigram entry boosting the word `[1, 2, 2]` after the
previous word `[3]`, against the unigram-stronger word `[1, 2]`. -/
theorem ranker_combines_bigram_and_unigram_witness :
    lookupBigram { entries := [([3], [1, 2, 2], 100)] } [3] [1, 2] = none ∧
      lookupBigram { entries := [([3], [1, 2, 2], 100)] } [3] [1, 2, 2] =
        some 100 ∧
      5 < 10 ∧
      (((100 : Nat) : Int) < ((10 : Nat) : Int) - ((5 : Nat) : Int) →
        combinedFrequency (some { entries := [([3], [1, 2, 2], 100)] })
            (some [3]) [1, 2, 2] 5 <
          combinedFrequency (some { entries := [([3], [1, 2, 2], 100)] })
            (some [3]) [1, 2] 10) :=
  ⟨by decide, by decide, by decide,
    (ranker_combines_bigram_and_unigram { entries := [([3], [1, 2, 2], 100)] }
      [3] [1, 2] [1, 2, 2] 10 5 100 (by decide) (by decide) (by decide)).1⟩

end LatinIME
